import Mathlib

/-!
Verification of the node lifecycle and acquisition subsystem of
`maas_extra/nodes.py`.

The development shallowly embeds the handler logic of the source file:
pure decision logic is translated into Lean functions; the mutable node
registry is passed explicitly as a list of nodes and every operation
returns the post-state of the registry next to its result.  Collaborator
code that lives in the host application rather than in this repository
(the status enumeration, `RELEASABLE_STATUSES`, `release_or_erase`,
`accept_enlistment`, the acquisition form) is modelled from the
specification and marked as such in the doc comment of each definition.
-/

/-- Modelled from the spec: the fixed status enumeration (`NODE_STATUS`
is defined by the host application, outside this repository).  The
fifteen members are the ones the specification lists. -/
inductive NodeStatus
  | NEW
  | COMMISSIONING
  | FAILED_COMMISSIONING
  | READY
  | RESERVED
  | ALLOCATED
  | DEPLOYING
  | DEPLOYED
  | RELEASING
  | DISK_ERASING
  | FAILED_DEPLOYMENT
  | FAILED_RELEASING
  | FAILED_DISK_ERASING
  | BROKEN
  | RETIRED
  deriving DecidableEq, Fintype, Repr

/-- Modelled from the spec: the numeric codes of the status enumeration
(the enum module is part of the host application and is not under this
repository).  The codes follow the upstream enumeration the source
refers to; in particular `6` is the legacy allocated code that
`NodeHandler.status` returns literally. -/
def NODE_STATUS.code : NodeStatus → Nat
  | .NEW => 0
  | .COMMISSIONING => 1
  | .FAILED_COMMISSIONING => 2
  | .READY => 4
  | .RESERVED => 5
  | .DEPLOYED => 6
  | .RETIRED => 7
  | .BROKEN => 8
  | .DEPLOYING => 9
  | .ALLOCATED => 10
  | .FAILED_DEPLOYMENT => 11
  | .RELEASING => 12
  | .FAILED_RELEASING => 13
  | .DISK_ERASING => 14
  | .FAILED_DISK_ERASING => 15

/-- Modelled from the spec: the human-readable display name of a status,
used by the source through `node.display_status()` (defined in the host
application). -/
def NodeStatus.displayName : NodeStatus → String
  | .NEW => "New"
  | .COMMISSIONING => "Commissioning"
  | .FAILED_COMMISSIONING => "Failed commissioning"
  | .READY => "Ready"
  | .RESERVED => "Reserved"
  | .ALLOCATED => "Allocated"
  | .DEPLOYING => "Deploying"
  | .DEPLOYED => "Deployed"
  | .RELEASING => "Releasing"
  | .DISK_ERASING => "Disk erasing"
  | .FAILED_DEPLOYMENT => "Failed deployment"
  | .FAILED_RELEASING => "Failed releasing"
  | .FAILED_DISK_ERASING => "Failed disk erasing"
  | .BROKEN => "Broken"
  | .RETIRED => "Retired"

/-- A machine resource, with the attributes the verified operations
read or write: identity, hostname, architecture, sizing, lifecycle
status, owner and the acquisition agent tag. -/
structure Node where
  system_id : String
  hostname : String
  architecture : String
  cpu_count : Nat
  memory : Nat
  status : NodeStatus
  owner : Option String
  agent_name : String
  tag_names : List String
  deriving DecidableEq, Repr

/-- Display status of a node, as used in the error messages of the
source (`node.display_status()`). -/
def Node.display_status (n : Node) : String :=
  n.status.displayName

/-- The first alias group of `NodeHandler.status` in the source:
statuses that the old lifecycle called allocated. -/
def old_allocated_status_aliases : List NodeStatus :=
  [.ALLOCATED, .DEPLOYING, .DEPLOYED, .FAILED_DEPLOYMENT]

/-- The second alias group of `NodeHandler.status` in the source. -/
def old_deployed_status_aliases : List NodeStatus :=
  [.RELEASING, .DISK_ERASING, .FAILED_RELEASING, .FAILED_DISK_ERASING]

/-- The combined alias list the source builds before testing membership:
`deployed_aliases = old_allocated_status_aliases + old_deployed_status_aliases`. -/
def deployed_aliases : List NodeStatus :=
  old_allocated_status_aliases ++ old_deployed_status_aliases

/-- The coarse backward-compatibility status view of the source
(`NodeHandler.status`): any status in the combined alias list is shown
as the literal legacy code `6`, every other status is shown as its own
numeric code. -/
def NodeHandler.status (node : Node) : Nat :=
  if node.status ∈ deployed_aliases then 6
  else NODE_STATUS.code node.status

/-- The fine-grained status view of the source (`NodeHandler.substatus`):
it returns `node.status` itself. -/
def NodeHandler.substatus (node : Node) : Nat :=
  NODE_STATUS.code node.status

/-- A sample node used to state concrete counterexamples and witnesses. -/
def exampleNode : Node :=
  { system_id := "node-1"
    hostname := "host1"
    architecture := "amd64/generic"
    cpu_count := 1
    memory := 1024
    status := .NEW
    owner := none
    agent_name := ""
    tag_names := [] }

/-- C1 (counterexample): the claim asserts the coarse view maps the
releasing-related group to a value distinct from the value of the
allocated-related group; in the code both groups are folded into the
same literal value 6, so a RELEASING node and an ALLOCATED node have
equal coarse views. -/
theorem C1_counterexample :
    NodeHandler.status { exampleNode with status := .RELEASING }
      = NodeHandler.status { exampleNode with status := .ALLOCATED } := by
  decide

/-- C1 (amended): the coarse status view maps every status of the two
alias groups ALLOCATED, DEPLOYING, DEPLOYED, FAILED_DEPLOYMENT,
RELEASING, DISK_ERASING, FAILED_RELEASING, FAILED_DISK_ERASING to the
one single value 6 — the two groups are not distinguished — and every
status outside the groups is shown unchanged (as its own code). -/
theorem C1_coarse_status_folds_both_groups (node : Node) :
    (node.status ∈ old_allocated_status_aliases → NodeHandler.status node = 6)
    ∧ (node.status ∈ old_deployed_status_aliases → NodeHandler.status node = 6)
    ∧ (node.status ∉ deployed_aliases →
        NodeHandler.status node = NODE_STATUS.code node.status) := by
  refine ⟨?_, ?_, ?_⟩
  · intro h
    have hmem : node.status ∈ deployed_aliases := by
      simp [deployed_aliases]
      exact Or.inl h
    simp [NodeHandler.status, hmem]
  · intro h
    have hmem : node.status ∈ deployed_aliases := by
      simp [deployed_aliases]
      exact Or.inr h
    simp [NodeHandler.status, hmem]
  · intro h
    simp [NodeHandler.status, h]

/-- C1 (witness): the amended statement evaluated at concrete nodes in
each of the three cases. -/
theorem C1_witness :
    NodeHandler.status { exampleNode with status := .DEPLOYED } = 6
    ∧ NodeHandler.status { exampleNode with status := .DISK_ERASING } = 6
    ∧ NodeHandler.status { exampleNode with status := .READY }
        = NODE_STATUS.code .READY := by
  refine ⟨?_, ?_, ?_⟩
  · exact (C1_coarse_status_folds_both_groups _).1 (by decide)
  · exact (C1_coarse_status_folds_both_groups _).2.1 (by decide)
  · exact (C1_coarse_status_folds_both_groups _).2.2 (by decide)

/-- C7: the substatus view always equals the node's true underlying
stored status: it is the numeric code of the stored status, and the code
assignment is injective, so the view determines the stored status for
every value of the enumeration. -/
theorem C7_substatus_is_true_status (node : Node) :
    NodeHandler.substatus node = NODE_STATUS.code node.status
    ∧ (∀ s t : NodeStatus, NODE_STATUS.code s = NODE_STATUS.code t → s = t) := by
  exact ⟨rfl, by decide⟩

/-- C7 (witness): the statement evaluated at a concrete node, with the
injectivity conjunct applied at concrete statuses. -/
theorem C7_witness :
    NodeHandler.substatus { exampleNode with status := .DEPLOYING }
        = NODE_STATUS.code .DEPLOYING
    ∧ (NODE_STATUS.code .NEW = NODE_STATUS.code .NEW → NodeStatus.NEW = .NEW) := by
  exact ⟨(C7_substatus_is_true_status _).1,
    (C7_substatus_is_true_status exampleNode).2 .NEW .NEW⟩

/-- Modelled from the spec: the releasable status group
(`RELEASABLE_STATUSES` is defined in the host application's node model,
outside this repository); the spec lists exactly these eight statuses. -/
def RELEASABLE_STATUSES : List NodeStatus :=
  [.ALLOCATED, .DEPLOYING, .DEPLOYED, .FAILED_DEPLOYMENT,
   .DISK_ERASING, .FAILED_DISK_ERASING, .RELEASING, .FAILED_RELEASING]

/-- Modelled from the spec: `node.release_or_erase()` (defined in the
host application) clears the owner and hands the machine to the
storage-erasure workflow, which may leave the status as RELEASING until
the external workflow reports completion. -/
def Node.release_or_erase (n : Node) : Node :=
  { n with status := .RELEASING, owner := none }

/-- Single-node release, `NodeHandler.release` in the source: READY is a
no-op success, a status in the releasable group performs
`release_or_erase`, anything else raises `NodeStateViolation`. -/
def NodeHandler.release (node : Node) : Except String Node :=
  if node.status = .READY then .ok node
  else if node.status ∈ RELEASABLE_STATUSES then .ok node.release_or_erase
  else .error ("Node cannot be released in its current state: "
    ++ node.display_status ++ ".")

/-- C2: the single-node release operation returns success with no state
change on a READY node, performs `release_or_erase` on a node in the
releasable group, and fails with the `NodeStateViolation` message (and
produces no new node state) for every other status. -/
theorem C2_single_release (node : Node) :
    (node.status = .READY → NodeHandler.release node = .ok node)
    ∧ (node.status ∈ RELEASABLE_STATUSES →
        NodeHandler.release node = .ok node.release_or_erase)
    ∧ (node.status ≠ .READY → node.status ∉ RELEASABLE_STATUSES →
        NodeHandler.release node
          = .error ("Node cannot be released in its current state: "
              ++ node.display_status ++ ".")) := by
  refine ⟨?_, ?_, ?_⟩
  · intro h
    simp [NodeHandler.release, h]
  · intro h
    have hne : node.status ≠ .READY := by
      intro he
      rw [he] at h
      exact absurd h (by decide)
    simp [NodeHandler.release, hne, h]
  · intro h1 h2
    simp [NodeHandler.release, h1, h2]

/-- C2 (witness): the three cases evaluated at concrete nodes (READY,
ALLOCATED and NEW). -/
theorem C2_witness :
    NodeHandler.release { exampleNode with status := .READY }
        = .ok { exampleNode with status := .READY }
    ∧ NodeHandler.release { exampleNode with status := .ALLOCATED }
        = .ok { exampleNode with status := .ALLOCATED }.release_or_erase
    ∧ NodeHandler.release exampleNode
        = .error ("Node cannot be released in its current state: "
            ++ exampleNode.display_status ++ ".") := by
  exact ⟨(C2_single_release _).1 rfl,
    (C2_single_release _).2.1 (by decide),
    (C2_single_release _).2.2 (by decide) (by decide)⟩

/-- Python truthiness of an optional request parameter: an absent
parameter and an empty string are both falsy, as in the source's
`if given_arch:` and `if given_subarch:` tests. -/
def truthy : Option String → Bool
  | none => false
  | some s => s != ""

/-- The architecture normalization of `create_node` in the source,
acting on the `architecture` and `subarchitecture` request parameters:
an architecture with a slash plus a subarchitecture is a validation
error; an architecture with a slash alone is used normally; a bare
architecture joined with the given subarchitecture, or with the default
subarchitecture generic when none is given.  The result is the
`architecture` value that the creation form receives. -/
def normalize_architecture (given_arch given_subarch : Option String) :
    Except String (Option String) :=
  if truthy given_arch && (given_arch.getD "").data.contains '/' then
    if truthy given_subarch then
      .error "Subarchitecture cannot be specified twice."
    else .ok given_arch
  else if truthy given_arch then
    if truthy given_subarch then
      .ok (some ((given_arch.getD "") ++ "/" ++ (given_subarch.getD "")))
    else .ok (some ((given_arch.getD "") ++ "/generic"))
  else .ok given_arch

/-- C8: every stored architecture is normalized to arch/subarch form: a
bare architecture with no (truthy) subarchitecture parameter gets the
default subarchitecture generic appended; a bare architecture with a
subarchitecture parameter is joined into arch/subarch; an architecture
already containing a slash (with no separate subarchitecture parameter,
which claim C10 covers) is used unchanged. -/
theorem C8_architecture_normalized (arch sub : String) (sub? : Option String) :
    (arch ≠ "" → '/' ∉ arch.data → truthy sub? = false →
        normalize_architecture (some arch) sub? = .ok (some (arch ++ "/generic")))
    ∧ (arch ≠ "" → '/' ∉ arch.data → sub ≠ "" →
        normalize_architecture (some arch) (some sub)
          = .ok (some (arch ++ "/" ++ sub)))
    ∧ ('/' ∈ arch.data → truthy sub? = false →
        normalize_architecture (some arch) sub? = .ok (some arch)) := by
  refine ⟨?_, ?_, ?_⟩
  · intro h1 h2 h3
    have ht : truthy (some arch) = true := by simp [truthy, h1]
    simp [normalize_architecture, ht, h2, h3]
  · intro h1 h2 h3
    have ht : truthy (some arch) = true := by simp [truthy, h1]
    have hs : truthy (some sub) = true := by simp [truthy, h3]
    simp [normalize_architecture, ht, hs, h2]
  · intro h1 h2
    have h0 : arch ≠ "" := by
      intro he
      rw [he] at h1
      exact absurd h1 (by decide)
    have ht : truthy (some arch) = true := by simp [truthy, h0]
    simp [normalize_architecture, ht, h1, h2]

/-- C8 (witness): the three normalization cases at concrete inputs. -/
theorem C8_witness :
    normalize_architecture (some "amd64") none = .ok (some ("amd64" ++ "/generic"))
    ∧ normalize_architecture (some "armhf") (some "highbank")
        = .ok (some ("armhf" ++ "/" ++ "highbank"))
    ∧ normalize_architecture (some "amd64/generic") none
        = .ok (some "amd64/generic") := by
  exact ⟨(C8_architecture_normalized "amd64" "x" none).1 (by decide) (by decide) rfl,
    (C8_architecture_normalized "armhf" "highbank" none).2.1
      (by decide) (by decide) (by decide),
    (C8_architecture_normalized "amd64/generic" "x" none).2.2 (by decide) rfl⟩

/-- C10: a creation request whose architecture already contains a slash
and which also supplies a (truthy) subarchitecture parameter fails with
the validation error of the source, and no architecture value (hence no
node) is produced. -/
theorem C10_subarchitecture_twice (arch sub : String)
    (hslash : '/' ∈ arch.data) (hsub : sub ≠ "") :
    normalize_architecture (some arch) (some sub)
      = .error "Subarchitecture cannot be specified twice." := by
  have h0 : arch ≠ "" := by
    intro he
    rw [he] at hslash
    exact absurd hslash (by decide)
  have ht : truthy (some arch) = true := by simp [truthy, h0]
  have hs : truthy (some sub) = true := by simp [truthy, hsub]
  simp [normalize_architecture, ht, hs, hslash]

/-- C10 (witness): the validation error at a concrete input. -/
theorem C10_witness :
    normalize_architecture (some "amd64/generic") (some "highbank")
      = .error "Subarchitecture cannot be specified twice." :=
  C10_subarchitecture_twice "amd64/generic" "highbank" (by decide) (by decide)

/-- An acting user: a name together with the permission oracle of the
spec (`canView`, `canEdit`, `canAdmin`). -/
structure User where
  username : String
  canView : Node → Bool
  canEdit : Node → Bool
  canAdmin : Node → Bool

/-- Modelled from the spec: the caller-supplied constraint set of the
acquisition form (`AcquireNodeForm` lives in the host application).
The fields exercised by the verified claims are kept: hostname,
architecture, minimum CPU count, minimum memory, required and excluded
tag sets; an absent field imposes no restriction. -/
structure ConstraintSet where
  name : Option String := none
  arch : Option String := none
  cpu_count : Option Nat := none
  mem : Option Nat := none
  tags : List String := []
  not_tags : List String := []
  deriving DecidableEq, Repr

/-- Modelled from the spec: architecture constraint matching — a
constraint containing a slash must match the node architecture exactly,
a bare constraint matches any subarchitecture of that architecture. -/
def archMatches (constraint nodeArch : String) : Bool :=
  if constraint.data.contains '/' then nodeArch == constraint
  else nodeArch.data.takeWhile (fun c => c != '/') == constraint.data

/-- Modelled from the spec: the pure AND-combined constraint match of a
single candidate; numeric minimums compare with `<=`, tag constraints
are set-membership tests and `not_` variants set-exclusion tests. -/
def ConstraintSet.matchesNode (c : ConstraintSet) (n : Node) : Bool :=
  (match c.name with | none => true | some h => n.hostname == h)
  && (match c.arch with | none => true | some a => archMatches a n.architecture)
  && (match c.cpu_count with | none => true | some k => decide (k ≤ n.cpu_count))
  && (match c.mem with | none => true | some m => decide (m ≤ n.memory))
  && c.tags.all (fun t => n.tag_names.contains t)
  && c.not_tags.all (fun t => !(n.tag_names.contains t))

/-- Modelled from the spec: `form.filter_nodes` — the order-preserving
filter of the candidate set by the constraint set. -/
def filter_nodes (c : ConstraintSet) (nodes : List Node) : List Node :=
  nodes.filter (fun n => c.matchesNode n)

/-- Tail of a separator join: the remaining words each preceded by one
space. -/
def joinTail : List String → String
  | [] => ""
  | p :: rest => " " ++ p ++ joinTail rest

/-- Space-separated join of a list of words, as Python's
space-`join` renders the constraint descriptions. -/
def joinWords : List String → String
  | [] => ""
  | p :: rest => p ++ joinTail rest

/-- Modelled from the spec: the rendered pieces of
`form.describe_constraints()`, one `field=value` clause per constraint
field that was given. -/
def ConstraintSet.describeParts (c : ConstraintSet) : List String :=
  (match c.name with | none => [] | some v => ["name=" ++ v])
  ++ (match c.arch with | none => [] | some v => ["arch=" ++ v])
  ++ (match c.cpu_count with | none => [] | some v => ["cpu_count=" ++ toString v])
  ++ (match c.mem with | none => [] | some v => ["mem=" ++ toString v])
  ++ (match c.tags with | [] => [] | ts => ["tags=" ++ joinWords ts])
  ++ (match c.not_tags with | [] => [] | ts => ["not_tags=" ++ joinWords ts])

/-- Modelled from the spec: `form.describe_constraints()` — the
human-readable rendering of the applied constraints. -/
def describe_constraints (c : ConstraintSet) : String :=
  joinWords c.describeParts

/-- Whether any constraint field was given at all. -/
def ConstraintSet.given (c : ConstraintSet) : Bool :=
  c.name.isSome || c.arch.isSome || c.cpu_count.isSome || c.mem.isSome
  || !c.tags.isEmpty || !c.not_tags.isEmpty

/-- Modelled from the spec: the base candidate pool
(`Node.objects.get_available_nodes_for_acquisition`): resources with
status READY, not already owned, visible to the requester, in the
registry's stable order. -/
def get_available_nodes_for_acquisition (reg : List Node) (user : User) : List Node :=
  reg.filter (fun n => decide (n.status = .READY) && n.owner.isNone && user.canView n)

/-- Modelled from the spec: `node.acquire(user, token, agent_name)` —
sets the owner to the requester, the status to ALLOCATED, and stamps the
agent name. -/
def Node.acquire (n : Node) (user : User) (agent_name : String) : Node :=
  { n with
    status := .ALLOCATED
    owner := some user.username
    agent_name := agent_name }

/-- `get_first` of the source: the first element of the candidate
sequence, if any. -/
def get_first (nodes : List Node) : Option Node :=
  nodes.head?

/-- The acquisition operation, `NodesHandler.acquire` in the source:
filter the available pool by the constraints, grant the first candidate
(mutating that node in the registry), or fail with the rendered
no-match message leaving the registry untouched. -/
def NodesHandler.acquire (reg : List Node) (user : User) (c : ConstraintSet)
    (agent_name : String) : List Node × Except String Node :=
  let nodes := filter_nodes c (get_available_nodes_for_acquisition reg user)
  match get_first nodes with
  | none =>
      if describe_constraints c = "" then (reg, .error "No node available.")
      else (reg, .error ("No available node matches constraints: "
        ++ describe_constraints c))
  | some node =>
      let acquired := node.acquire user agent_name
      (reg.map (fun m => if m.system_id == node.system_id then acquired else m),
        .ok acquired)

/-- Appending to a nonempty string never gives the empty string. -/
theorem str_append_ne_empty (s t : String) (h : s ≠ "") : s ++ t ≠ "" := by
  intro he
  apply h
  have hd : s.data ++ t.data = ([] : List Char) := by
    have := congrArg String.data he
    simpa using this
  exact String.ext (List.append_eq_nil.mp hd).1

/-- A space-join of nonempty words is empty exactly for the empty list
of words. -/
theorem joinWords_ne_empty (parts : List String) (hne : parts ≠ [])
    (hall : ∀ p ∈ parts, p ≠ "") : joinWords parts ≠ "" := by
  match parts with
  | [] => exact absurd rfl hne
  | p :: rest => exact str_append_ne_empty p _ (hall p (by simp))

/-- Every rendered constraint clause is a nonempty string. -/
theorem describeParts_ne_empty (c : ConstraintSet) :
    ∀ p ∈ c.describeParts, p ≠ "" := by
  intro p hp
  simp only [ConstraintSet.describeParts, List.mem_append] at hp
  rcases hp with ((((h | h) | h) | h) | h) | h
  · cases hn : c.name with
    | none => rw [hn] at h; simp at h
    | some v =>
        rw [hn] at h; simp at h; subst h
        exact str_append_ne_empty "name=" v (by decide)
  · cases hn : c.arch with
    | none => rw [hn] at h; simp at h
    | some v =>
        rw [hn] at h; simp at h; subst h
        exact str_append_ne_empty "arch=" v (by decide)
  · cases hn : c.cpu_count with
    | none => rw [hn] at h; simp at h
    | some v =>
        rw [hn] at h; simp at h; subst h
        exact str_append_ne_empty "cpu_count=" (toString v) (by decide)
  · cases hn : c.mem with
    | none => rw [hn] at h; simp at h
    | some v =>
        rw [hn] at h; simp at h; subst h
        exact str_append_ne_empty "mem=" (toString v) (by decide)
  · cases hn : c.tags with
    | nil => rw [hn] at h; simp at h
    | cons a l =>
        rw [hn] at h; simp at h; subst h
        exact str_append_ne_empty "tags=" _ (by decide)
  · cases hn : c.not_tags with
    | nil => rw [hn] at h; simp at h
    | cons a l =>
        rw [hn] at h; simp at h; subst h
        exact str_append_ne_empty "not_tags=" _ (by decide)

/-- The rendered clause list is empty exactly when no constraint field
was given. -/
theorem describeParts_eq_nil_iff (c : ConstraintSet) :
    c.describeParts = [] ↔ c.given = false := by
  rcases c with ⟨name, arch, cpu, mem, tags, ntags⟩
  cases name <;> cases arch <;> cases cpu <;> cases mem <;>
    cases tags <;> cases ntags <;>
    simp [ConstraintSet.describeParts, ConstraintSet.given]

/-- The constraint rendering is the empty string exactly when no
constraint was given. -/
theorem describe_constraints_eq_empty_iff (c : ConstraintSet) :
    (describe_constraints c = "") ↔ c.given = false := by
  rw [← describeParts_eq_nil_iff]
  constructor
  · intro h
    by_contra hne
    exact joinWords_ne_empty _ hne (describeParts_ne_empty c) h
  · intro h
    rw [describe_constraints, h]
    rfl

/-- C5: when no candidate matches, acquisition fails with the rendered
no-match message and the registry is returned untouched (no owner or
status changes); the rendering is the empty string exactly when no
constraint was given, in which case the message is the bare no-node
message, and a descriptive clause otherwise. -/
theorem C5_acquire_no_match (reg : List Node) (user : User) (c : ConstraintSet)
    (agent_name : String)
    (h : filter_nodes c (get_available_nodes_for_acquisition reg user) = []) :
    NodesHandler.acquire reg user c agent_name
      = (reg, .error (if describe_constraints c = "" then "No node available."
          else "No available node matches constraints: " ++ describe_constraints c))
    ∧ ((describe_constraints c = "") ↔ c.given = false) := by
  constructor
  · by_cases hd : describe_constraints c = "" <;>
      simp [NodesHandler.acquire, get_first, h, hd]
  · exact describe_constraints_eq_empty_iff c

/-- A requester who can see and edit everything, for concrete
scenarios. -/
def exampleRequester : User :=
  { username := "alice"
    canView := fun _ => true
    canEdit := fun _ => true
    canAdmin := fun _ => true }

/-- The architecture constraint of the end-to-end example. -/
def exampleConstraints : ConstraintSet :=
  { arch := some "amd64/generic" }

/-- First node of the end-to-end example: READY, amd64/generic, 2048 MB. -/
def exampleN1 : Node :=
  { system_id := "n1"
    hostname := "h1"
    architecture := "amd64/generic"
    cpu_count := 2
    memory := 2048
    status := .READY
    owner := none
    agent_name := ""
    tag_names := [] }

/-- Second node of the end-to-end example: READY, i386/generic, 1024 MB. -/
def exampleN2 : Node :=
  { system_id := "n2"
    hostname := "h2"
    architecture := "i386/generic"
    cpu_count := 1
    memory := 1024
    status := .READY
    owner := none
    agent_name := ""
    tag_names := [] }

/-- C5 (witness): a registry whose only node is not READY gives an empty
candidate set; the no-match failure carries the rendered constraint
clause and leaves the registry untouched. -/
theorem C5_witness :
    filter_nodes exampleConstraints
        (get_available_nodes_for_acquisition [exampleNode] exampleRequester) = []
    ∧ (NodesHandler.acquire [exampleNode] exampleRequester exampleConstraints ""
        = ([exampleNode],
            .error (if describe_constraints exampleConstraints = ""
              then "No node available."
              else "No available node matches constraints: "
                ++ describe_constraints exampleConstraints))
      ∧ ((describe_constraints exampleConstraints = "")
          ↔ exampleConstraints.given = false)) :=
  ⟨rfl, C5_acquire_no_match [exampleNode] exampleRequester exampleConstraints "" rfl⟩

/-- C6: when an acquisition succeeds it grants the first matching
candidate of the available pool in the registry's stable order (so, the
identifier-least match when the registry is ordered by identifier); and
the concrete end-to-end example: with registry n1 (READY, amd64/generic)
and n2 (READY, i386/generic), acquiring with arch=amd64/generic grants
n1 with status ALLOCATED and owner alice, and an identical second call
fails with the no-match message. -/
theorem C6_acquire_picks_first_candidate :
    (∀ (reg : List Node) (user : User) (c : ConstraintSet) (agent : String)
        (m : Node),
        reg.Pairwise (fun a b => a.system_id ≤ b.system_id) →
        (NodesHandler.acquire reg user c agent).2 = .ok m →
        ∃ n, n ∈ get_available_nodes_for_acquisition reg user
          ∧ c.matchesNode n = true
          ∧ m = n.acquire user agent
          ∧ ∀ k ∈ get_available_nodes_for_acquisition reg user,
              c.matchesNode k = true → n.system_id ≤ k.system_id)
    ∧ (NodesHandler.acquire [exampleN1, exampleN2] exampleRequester
          exampleConstraints "").2
        = .ok (exampleN1.acquire exampleRequester "")
    ∧ (exampleN1.acquire exampleRequester "").status = .ALLOCATED
    ∧ (exampleN1.acquire exampleRequester "").owner = some "alice"
    ∧ (NodesHandler.acquire
          (NodesHandler.acquire [exampleN1, exampleN2] exampleRequester
            exampleConstraints "").1
          exampleRequester exampleConstraints "").2
        = .error ("No available node matches constraints: "
            ++ describe_constraints exampleConstraints) := by
  refine ⟨?_, rfl, rfl, rfl, rfl⟩
  intro reg user c agent m hsorted hok
  cases hl : (filter_nodes c (get_available_nodes_for_acquisition reg user)).head?
    with
  | none =>
      exfalso
      by_cases hd : describe_constraints c = "" <;>
        simp [NodesHandler.acquire, get_first, hl, hd] at hok
  | some n =>
      have hm : m = n.acquire user agent := by
        simp [NodesHandler.acquire, get_first, hl] at hok
        exact hok.symm
      obtain ⟨ys, hys⟩ := List.head?_eq_some_iff.mp hl
      have hnmem : n ∈ filter_nodes c (get_available_nodes_for_acquisition reg user) := by
        rw [hys]
        exact List.mem_cons_self n ys
      have hnpool : n ∈ get_available_nodes_for_acquisition reg user :=
        (List.mem_filter.mp hnmem).1
      have hnmatch : c.matchesNode n = true := by
        have := (List.mem_filter.mp hnmem).2
        simpa using this
      refine ⟨n, hnpool, hnmatch, hm, ?_⟩
      intro k hk hkm
      have hkfil : k ∈ filter_nodes c (get_available_nodes_for_acquisition reg user) :=
        List.mem_filter.mpr ⟨hk, by simpa using hkm⟩
      rw [hys] at hkfil
      rcases List.mem_cons.mp hkfil with hkn | hkt
      · rw [hkn]
      · have hpool : (get_available_nodes_for_acquisition reg user).Pairwise
            (fun a b => a.system_id ≤ b.system_id) :=
          List.Pairwise.sublist (List.filter_sublist reg) hsorted
        have hpair : (filter_nodes c (get_available_nodes_for_acquisition reg user)).Pairwise
            (fun a b => a.system_id ≤ b.system_id) :=
          List.Pairwise.sublist (List.filter_sublist _) hpool
        rw [hys] at hpair
        exact (List.pairwise_cons.mp hpair).1 k hkt

/-- C6 (witness): the general first-candidate statement applied to the
concrete ordered registry of the example. -/
theorem C6_witness :
    ([exampleN1, exampleN2].Pairwise (fun a b : Node => a.system_id ≤ b.system_id))
    ∧ ∃ n, n ∈ get_available_nodes_for_acquisition [exampleN1, exampleN2]
          exampleRequester
        ∧ exampleConstraints.matchesNode n = true
        ∧ exampleN1.acquire exampleRequester "" = n.acquire exampleRequester ""
        ∧ ∀ k ∈ get_available_nodes_for_acquisition [exampleN1, exampleN2]
            exampleRequester,
            exampleConstraints.matchesNode k = true → n.system_id ≤ k.system_id := by
  have hp : ([exampleN1, exampleN2].Pairwise
      (fun a b : Node => a.system_id ≤ b.system_id)) := by
    simp [List.pairwise_cons, exampleN1, exampleN2]
    decide
  exact ⟨hp, C6_acquire_picks_first_candidate.1 _ _ _ _ _ hp rfl⟩

/-- Registry lookup by identifier (`Node.objects.filter(system_id=...)`
restricted to one id): the first node carrying the identifier, if any. -/
def getById : List Node → String → Option Node
  | [], _ => none
  | n :: rest, i => if n.system_id = i then some n else getById rest i

/-- The unknown identifiers computed by `_check_system_ids_exist` in the
source: the requested identifiers with no node in the registry. -/
def unknown_ids (reg : List Node) (ids : List String) : List String :=
  ids.filter (fun i => (getById reg i).isNone)

/-- Modelled from the spec: `Node.objects.get_nodes(user, perm, ids)` —
the registry nodes among the requested identifiers on which the actor
holds the required permission, in registry order. -/
def get_nodes (reg : List Node) (perm : Node → Bool) (ids : List String) : List Node :=
  reg.filter (fun n => decide (n.system_id ∈ ids) && perm n)

/-- The failure modes of the bulk handlers: unknown identifiers
(`MAASAPIBadRequest`), missing permissions (`PermissionDenied`), the
final mixed-outcome state violation of bulk release with its
per-identifier reasons, and a propagated per-node state violation of
bulk accept. -/
inductive BulkError
  | unknownNodes (ids : List String)
  | permissionDenied (ids : List String)
  | releaseFailed (failures : List (String × String))
  | stateViolation (msg : String)
  deriving DecidableEq, Repr

/-- The per-node effect of the bulk release loop on the registry: READY
is left alone, a releasable node goes through `release_or_erase`, an
incompatible node is left alone (it is only reported). -/
def processRelease (n : Node) : Node :=
  if n.status = .READY then n
  else if n.status ∈ RELEASABLE_STATUSES then n.release_or_erase
  else n

/-- The accumulating for-loop of `NodesHandler.release` in the source:
first component the `released_ids` accumulator, second the `failed`
entries, each an identifier with its display-status reason, both in
iteration order. -/
def releaseLoop : List Node → List String × List (String × String)
  | [] => ([], [])
  | node :: rest =>
      let acc := releaseLoop rest
      if node.status = .READY then acc
      else if node.status ∈ RELEASABLE_STATUSES then
        (node.system_id :: acc.1, acc.2)
      else (acc.1, (node.system_id, node.display_status) :: acc.2)

/-- The permitted target nodes of a bulk release call. -/
def target_nodes (reg : List Node) (user : User) (system_ids : List String) :
    List Node :=
  get_nodes reg user.canEdit system_ids.dedup

/-- The registry state after the bulk release loop ran: every targeted,
edit-permitted node went through the per-node release effect; everything
else is untouched. -/
def release_registry (reg : List Node) (user : User) (system_ids : List String) :
    List Node :=
  reg.map (fun n =>
    if decide (n.system_id ∈ system_ids.dedup) && user.canEdit n
    then processRelease n else n)

/-- Bulk release, `NodesHandler.release` in the source: check all
identifiers exist, check the actor can edit all of them, then release
each independently, and report the mixed outcome at the end. -/
def NodesHandler.releaseBulk (reg : List Node) (user : User)
    (system_ids : List String) : List Node × Except BulkError (List String) :=
  let ids := system_ids.dedup
  let unknown := unknown_ids reg ids
  if unknown ≠ [] then (reg, .error (.unknownNodes unknown))
  else
    let nodes := get_nodes reg user.canEdit ids
    if nodes.length < ids.length then
      (reg, .error (.permissionDenied (ids.filter (fun i =>
        !decide (i ∈ nodes.map Node.system_id)))))
    else
      let results := releaseLoop nodes
      let reg2 := release_registry reg user system_ids
      if results.2 ≠ [] then (reg2, .error (.releaseFailed results.2))
      else (reg2, .ok results.1)

/-- Under unique registry identifiers, the lookup finds a node exactly
when it is the registry member carrying the identifier. -/
theorem getById_eq_some (reg : List Node) (i : String) (n : Node)
    (hnd : (reg.map Node.system_id).Nodup) :
    getById reg i = some n ↔ (n ∈ reg ∧ n.system_id = i) := by
  induction reg with
  | nil => simp [getById]
  | cons h t ih =>
      rw [List.map_cons, List.nodup_cons] at hnd
      by_cases hh : h.system_id = i
      · rw [show getById (h :: t) i = some h by simp [getById, hh]]
        constructor
        · intro he
          rw [← Option.some.inj he]
          exact ⟨List.mem_cons_self _ _, hh⟩
        · rintro ⟨hmem, hi⟩
          rcases List.mem_cons.mp hmem with rfl | hmt
          · rfl
          · exfalso
            apply hnd.1
            rw [hh, ← hi]
            exact List.mem_map_of_mem _ hmt
      · rw [show getById (h :: t) i = getById t i by simp [getById, hh]]
        rw [ih hnd.2]
        constructor
        · rintro ⟨hmem, hi⟩
          exact ⟨List.mem_cons_of_mem _ hmem, hi⟩
        · rintro ⟨hmem, hi⟩
          rcases List.mem_cons.mp hmem with rfl | hmt
          · exact absurd hi hh
          · exact ⟨hmt, hi⟩

/-- An identifier is permitted (appears among the fetched nodes) exactly
when its registry node exists, was requested, and passes the permission
predicate. -/
theorem mem_get_nodes_map (reg : List Node) (perm : Node → Bool)
    (ids : List String) (i : String) (hnd : (reg.map Node.system_id).Nodup) :
    i ∈ (get_nodes reg perm ids).map Node.system_id
      ↔ ∃ n, getById reg i = some n ∧ i ∈ ids ∧ perm n = true := by
  constructor
  · intro h
    rcases List.mem_map.mp h with ⟨n, hn, rfl⟩
    rcases List.mem_filter.mp hn with ⟨hmem, hcond⟩
    rw [Bool.and_eq_true, decide_eq_true_eq] at hcond
    exact ⟨n, (getById_eq_some reg _ n hnd).mpr ⟨hmem, rfl⟩, hcond.1, hcond.2⟩
  · rintro ⟨n, hn, hi, hp⟩
    rcases (getById_eq_some reg i n hnd).mp hn with ⟨hmem, hid⟩
    have : n ∈ get_nodes reg perm ids := by
      refine List.mem_filter.mpr ⟨hmem, ?_⟩
      rw [Bool.and_eq_true, decide_eq_true_eq, hid]
      exact ⟨hi, hp⟩
    rw [← hid]
    exact List.mem_map_of_mem _ this

/-- The fetched-node identifiers are unique whenever the registry's
are. -/
theorem get_nodes_map_nodup (reg : List Node) (perm : Node → Bool)
    (ids : List String) (hnd : (reg.map Node.system_id).Nodup) :
    ((get_nodes reg perm ids).map Node.system_id).Nodup :=
  List.Nodup.sublist (List.Sublist.map _ (List.filter_sublist reg)) hnd

/-- When some requested node fails the permission predicate, strictly
fewer nodes are fetched than requested (the length test of the
source). -/
theorem get_nodes_length_lt (reg : List Node) (perm : Node → Bool)
    (ids : List String) (hnd : (reg.map Node.system_id).Nodup)
    (i0 : String) (n0 : Node) (hi0 : i0 ∈ ids)
    (hn0 : getById reg i0 = some n0) (hp : perm n0 = false) :
    (get_nodes reg perm ids).length < ids.length := by
  have hmapnd := get_nodes_map_nodup reg perm ids hnd
  have hni : i0 ∉ (get_nodes reg perm ids).map Node.system_id := by
    intro hmem
    rcases (mem_get_nodes_map reg perm ids i0 hnd).mp hmem with ⟨n, hn, _, hptrue⟩
    rw [hn0] at hn
    rw [← Option.some.inj hn] at hptrue
    rw [hp] at hptrue
    exact Bool.false_ne_true hptrue
  have hsub : (get_nodes reg perm ids).map Node.system_id ⊆ ids.erase i0 := by
    intro j hj
    have hj' := (mem_get_nodes_map reg perm ids j hnd).mp hj
    rcases hj' with ⟨n, _, hjids, _⟩
    have hne : j ≠ i0 := by
      intro he
      rw [he] at hj
      exact hni hj
    exact (List.mem_erase_of_ne hne).mpr hjids
  have hle : ((get_nodes reg perm ids).map Node.system_id).length
      ≤ (ids.erase i0).length :=
    (List.subperm_of_subset hmapnd hsub).length_le
  rw [List.length_map] at hle
  rw [List.length_erase_of_mem hi0] at hle
  have hpos : 0 < ids.length := List.length_pos_of_mem hi0
  omega

/-- When every requested node exists and passes the permission
predicate, at least as many nodes are fetched as requested. -/
theorem get_nodes_length_ge (reg : List Node) (perm : Node → Bool)
    (ids : List String) (hnd : (reg.map Node.system_id).Nodup)
    (hids : ids.Nodup)
    (hall : ∀ i ∈ ids, ∃ n, getById reg i = some n ∧ perm n = true) :
    ids.length ≤ (get_nodes reg perm ids).length := by
  have hsub : ids ⊆ (get_nodes reg perm ids).map Node.system_id := by
    intro i hi
    rcases hall i hi with ⟨n, hn, hp⟩
    exact (mem_get_nodes_map reg perm ids i hnd).mpr ⟨n, hn, hi, hp⟩
  have := (List.subperm_of_subset hids hsub).length_le
  rw [List.length_map] at this
  exact this

/-- C3: a bulk release call over identifiers with an unknown member
fails wholly with the unknown-nodes error listing exactly the unknown
identifiers and the registry is returned untouched; a call whose
identifiers all exist but include one the actor cannot edit fails wholly
with the permission error listing exactly the forbidden identifiers,
again with the registry untouched. -/
theorem C3_bulk_release_validation (reg : List Node) (user : User)
    (system_ids : List String) (hnd : (reg.map Node.system_id).Nodup) :
    ((∃ i ∈ system_ids, getById reg i = none) →
      ∃ unknown, NodesHandler.releaseBulk reg user system_ids
          = (reg, .error (.unknownNodes unknown))
        ∧ ∀ i, i ∈ unknown ↔ (i ∈ system_ids ∧ getById reg i = none))
    ∧ ((∀ i ∈ system_ids, (getById reg i).isSome = true) →
      (∃ i ∈ system_ids, ∃ n, getById reg i = some n ∧ user.canEdit n = false) →
      ∃ forbidden, NodesHandler.releaseBulk reg user system_ids
          = (reg, .error (.permissionDenied forbidden))
        ∧ ∀ i, i ∈ forbidden ↔
            (i ∈ system_ids
              ∧ ∃ n, getById reg i = some n ∧ user.canEdit n = false)) := by
  constructor
  · rintro ⟨i, hi, hnone⟩
    refine ⟨unknown_ids reg system_ids.dedup, ?_, ?_⟩
    · have hmem : i ∈ unknown_ids reg system_ids.dedup := by
        refine List.mem_filter.mpr ⟨List.mem_dedup.mpr hi, ?_⟩
        rw [hnone]
        rfl
      have hne : unknown_ids reg system_ids.dedup ≠ [] :=
        List.ne_nil_of_mem hmem
      simp only [NodesHandler.releaseBulk]
      rw [if_pos hne]
    · intro j
      constructor
      · intro hj
        rcases List.mem_filter.mp hj with ⟨hjd, hjn⟩
        refine ⟨List.mem_dedup.mp hjd, ?_⟩
        exact Option.isNone_iff_eq_none.mp hjn
      · rintro ⟨hj, hjn⟩
        refine List.mem_filter.mpr ⟨List.mem_dedup.mpr hj, ?_⟩
        rw [hjn]
        rfl
  · rintro hall ⟨i0, hi0, n0, hn0, hperm⟩
    have hempty : unknown_ids reg system_ids.dedup = [] := by
      rw [unknown_ids, List.filter_eq_nil_iff]
      intro j hj
      have := hall j (List.mem_dedup.mp hj)
      simp only [Option.isNone]
      intro hc
      rcases ho : getById reg j with _ | v
      · rw [ho] at this
        exact Bool.false_ne_true this
      · rw [ho] at hc
        exact Bool.false_ne_true ((rfl : false = false) ▸ hc)
    have hlt : (get_nodes reg user.canEdit system_ids.dedup).length
        < system_ids.dedup.length :=
      get_nodes_length_lt reg user.canEdit system_ids.dedup hnd i0 n0
        (List.mem_dedup.mpr hi0) hn0 hperm
    refine ⟨system_ids.dedup.filter (fun i =>
      !decide (i ∈ (get_nodes reg user.canEdit system_ids.dedup).map
        Node.system_id)), ?_, ?_⟩
    · simp only [NodesHandler.releaseBulk]
      rw [if_neg (by simp [hempty]), if_pos hlt]
    · intro j
      constructor
      · intro hj
        rcases List.mem_filter.mp hj with ⟨hjd, hjn⟩
        rw [Bool.not_eq_eq_eq_not, Bool.not_true, decide_eq_false_iff_not] at hjn
        have hjs := List.mem_dedup.mp hjd
        rcases Option.isSome_iff_exists.mp (hall j hjs) with ⟨n, hn⟩
        refine ⟨hjs, n, hn, ?_⟩
        cases hce : user.canEdit n
        · rfl
        · exfalso
          exact hjn ((mem_get_nodes_map reg user.canEdit system_ids.dedup j
            hnd).mpr ⟨n, hn, hjd, hce⟩)
      · rintro ⟨hj, n, hn, hce⟩
        refine List.mem_filter.mpr ⟨List.mem_dedup.mpr hj, ?_⟩
        rw [Bool.not_eq_eq_eq_not, Bool.not_true, decide_eq_false_iff_not]
        intro hmem
        rcases (mem_get_nodes_map reg user.canEdit system_ids.dedup j
          hnd).mp hmem with ⟨m, hm, _, hpm⟩
        rw [hn] at hm
        rw [← Option.some.inj hm] at hpm
        rw [hce] at hpm
        exact Bool.false_ne_true hpm

/-- An actor who may edit every node except n2. -/
def exampleEditUser : User :=
  { username := "bob"
    canView := fun _ => true
    canEdit := fun n => n.system_id != "n2"
    canAdmin := fun _ => true }

/-- C3 (witness): over the registry n1, n2 — a request naming the
unknown nx fails listing exactly nx; a request naming n1 and n2 by an
actor who cannot edit n2 fails listing exactly n2; both leave the
registry untouched. -/
theorem C3_witness :
    (∃ i ∈ ["n1", "nx"], getById [exampleN1, exampleN2] i = none)
    ∧ (∃ unknown, NodesHandler.releaseBulk [exampleN1, exampleN2]
          exampleEditUser ["n1", "nx"]
        = ([exampleN1, exampleN2], .error (.unknownNodes unknown))
        ∧ ∀ i, i ∈ unknown ↔ (i ∈ ["n1", "nx"]
            ∧ getById [exampleN1, exampleN2] i = none))
    ∧ (∃ forbidden, NodesHandler.releaseBulk [exampleN1, exampleN2]
          exampleEditUser ["n1", "n2"]
        = ([exampleN1, exampleN2], .error (.permissionDenied forbidden))
        ∧ ∀ i, i ∈ forbidden ↔ (i ∈ ["n1", "n2"]
            ∧ ∃ n, getById [exampleN1, exampleN2] i = some n
              ∧ exampleEditUser.canEdit n = false)) := by
  have hnd : (([exampleN1, exampleN2]).map Node.system_id).Nodup := by decide
  refine ⟨⟨"nx", by decide, rfl⟩, ?_, ?_⟩
  · exact (C3_bulk_release_validation [exampleN1, exampleN2] exampleEditUser
      ["n1", "nx"] hnd).1 ⟨"nx", by decide, rfl⟩
  · refine (C3_bulk_release_validation [exampleN1, exampleN2] exampleEditUser
      ["n1", "n2"] hnd).2 ?_ ?_
    · intro i hi
      simp only [List.mem_cons, List.not_mem_nil, or_false] at hi
      rcases hi with rfl | rfl <;> rfl
    · exact ⟨"n2", by decide, exampleN2, rfl, rfl⟩

/-- The released identifiers of the loop are exactly the identifiers of
the releasable targets, in order. -/
theorem releaseLoop_fst (nodes : List Node) :
    (releaseLoop nodes).1
      = (nodes.filter (fun n => decide (n.status ∈ RELEASABLE_STATUSES))).map
          Node.system_id := by
  induction nodes with
  | nil => rfl
  | cons h t ih =>
      by_cases h1 : h.status = .READY
      · have h2 : ¬ h.status ∈ RELEASABLE_STATUSES := by
          rw [h1]
          decide
        simp [releaseLoop, List.filter_cons, h1, h2, ih,
          show NodeStatus.READY ∉ RELEASABLE_STATUSES from by decide]
      · by_cases h2 : h.status ∈ RELEASABLE_STATUSES
        · simp [releaseLoop, List.filter_cons, h1, h2, ih]
        · simp [releaseLoop, List.filter_cons, h1, h2, ih]

/-- The failure entries of the loop are exactly the identifier/reason
pairs of the targets that are neither READY nor releasable, in order. -/
theorem releaseLoop_snd (nodes : List Node) :
    (releaseLoop nodes).2
      = (nodes.filter (fun n => !decide (n.status = .READY)
          && !decide (n.status ∈ RELEASABLE_STATUSES))).map
          (fun n => (n.system_id, n.display_status)) := by
  induction nodes with
  | nil => rfl
  | cons h t ih =>
      by_cases h1 : h.status = .READY
      · simp [releaseLoop, List.filter_cons, h1, ih,
          show NodeStatus.READY ∉ RELEASABLE_STATUSES from by decide]
      · by_cases h2 : h.status ∈ RELEASABLE_STATUSES
        · simp [releaseLoop, List.filter_cons, h1, h2, ih]
        · simp [releaseLoop, List.filter_cons, h1, h2, ih]

/-- The per-node release effect never changes the identifier. -/
theorem processRelease_system_id (n : Node) :
    (processRelease n).system_id = n.system_id := by
  unfold processRelease
  split
  · rfl
  · split
    · rfl
    · rfl

/-- Lookup commutes with an identifier-preserving registry map. -/
theorem getById_map (reg : List Node) (f : Node → Node)
    (hf : ∀ n, (f n).system_id = n.system_id) (i : String) :
    getById (reg.map f) i = Option.map f (getById reg i) := by
  induction reg with
  | nil => rfl
  | cons h t ih =>
      simp only [List.map_cons, getById, hf h]
      by_cases hh : h.system_id = i
      · rw [if_pos hh, if_pos hh]
        rfl
      · rw [if_neg hh, if_neg hh]
        exact ih

/-- C4: a bulk release whose identifiers all exist and are all
edit-permitted processes each target independently: the call reaches the
per-node loop and reports either the failure list or the released
identifiers; a READY target is a no-op success (appearing in neither
list); a target that is neither READY nor releasable contributes its
identifier and reason to the failure list without stopping the others;
and every releasable target is released in the returned registry — also
when failures occurred, so the applied changes are not rolled back. -/
theorem C4_bulk_release_independent (reg : List Node) (user : User)
    (system_ids : List String) (hnd : (reg.map Node.system_id).Nodup)
    (hall : ∀ i ∈ system_ids, ∃ n, getById reg i = some n
      ∧ user.canEdit n = true) :
    (NodesHandler.releaseBulk reg user system_ids
      = (release_registry reg user system_ids,
          if (releaseLoop (target_nodes reg user system_ids)).2 ≠ [] then
            .error (.releaseFailed
              (releaseLoop (target_nodes reg user system_ids)).2)
          else .ok (releaseLoop (target_nodes reg user system_ids)).1))
    ∧ (∀ n ∈ target_nodes reg user system_ids, n.status = .READY →
        n.system_id ∉ (releaseLoop (target_nodes reg user system_ids)).1
        ∧ ∀ r, (n.system_id, r) ∉ (releaseLoop (target_nodes reg user system_ids)).2)
    ∧ (∀ n ∈ target_nodes reg user system_ids,
        n.status ≠ .READY → n.status ∉ RELEASABLE_STATUSES →
        (n.system_id, n.display_status)
          ∈ (releaseLoop (target_nodes reg user system_ids)).2)
    ∧ (∀ n ∈ target_nodes reg user system_ids,
        n.status ∈ RELEASABLE_STATUSES →
        n.system_id ∈ (releaseLoop (target_nodes reg user system_ids)).1
        ∧ getById (release_registry reg user system_ids) n.system_id
            = some n.release_or_erase) := by
  have hall' : ∀ i ∈ system_ids.dedup, ∃ n, getById reg i = some n
      ∧ user.canEdit n = true := fun i hi => hall i (List.mem_dedup.mp hi)
  have hempty : unknown_ids reg system_ids.dedup = [] := by
    rw [unknown_ids, List.filter_eq_nil_iff]
    intro j hj
    rcases hall' j hj with ⟨n, hn, _⟩
    rw [hn]
    exact fun hc => Bool.false_ne_true hc
  have hge : system_ids.dedup.length
      ≤ (get_nodes reg user.canEdit system_ids.dedup).length :=
    get_nodes_length_ge reg user.canEdit system_ids.dedup hnd
      (List.nodup_dedup system_ids) hall'
  have hmapnd := get_nodes_map_nodup reg user.canEdit system_ids.dedup hnd
  have htarget : target_nodes reg user system_ids
      = get_nodes reg user.canEdit system_ids.dedup := rfl
  refine ⟨?_, ?_, ?_, ?_⟩
  · simp only [NodesHandler.releaseBulk]
    rw [if_neg (by simp [hempty]), if_neg (by omega)]
    simp only [htarget]
    by_cases hc : (releaseLoop (get_nodes reg user.canEdit system_ids.dedup)).2 ≠ []
    · rw [if_pos hc, if_pos hc]
    · rw [if_neg hc, if_neg hc]
  · intro n hn hready
    constructor
    · intro hmem
      rw [releaseLoop_fst] at hmem
      rcases List.mem_map.mp hmem with ⟨m, hmf, hms⟩
      rcases List.mem_filter.mp hmf with ⟨hmt, hmrel⟩
      rw [decide_eq_true_eq] at hmrel
      rw [htarget] at hn hmt
      have : m = n := List.inj_on_of_nodup_map hmapnd hmt hn hms
      rw [this, hready] at hmrel
      exact absurd hmrel (by decide)
    · intro r hmem
      rw [releaseLoop_snd] at hmem
      rcases List.mem_map.mp hmem with ⟨m, hmf, hms⟩
      rcases List.mem_filter.mp hmf with ⟨hmt, hmcond⟩
      have hms' : m.system_id = n.system_id := congrArg Prod.fst hms
      rw [htarget] at hn hmt
      have : m = n := List.inj_on_of_nodup_map hmapnd hmt hn hms'
      rw [this, hready] at hmcond
      simp at hmcond
  · intro n hn h1 h2
    rw [releaseLoop_snd]
    refine List.mem_map_of_mem _ (List.mem_filter.mpr ⟨hn, ?_⟩)
    simp [h1, h2]
  · intro n hn hrel
    have h1 : n.status ≠ .READY := by
      intro he
      rw [he] at hrel
      exact absurd hrel (by decide)
    constructor
    · rw [releaseLoop_fst]
      refine List.mem_map_of_mem _ (List.mem_filter.mpr ⟨hn, ?_⟩)
      exact decide_eq_true hrel
    · have hpres : ∀ m : Node,
          ((fun k => if decide (k.system_id ∈ system_ids.dedup) && user.canEdit k
            then processRelease k else k) m).system_id = m.system_id := by
        intro m
        show (if (decide (m.system_id ∈ system_ids.dedup)
            && user.canEdit m) = true then processRelease m else m).system_id
          = m.system_id
        by_cases hc : (decide (m.system_id ∈ system_ids.dedup)
            && user.canEdit m) = true
        · rw [if_pos hc]
          exact processRelease_system_id m
        · rw [if_neg hc]
      rw [release_registry, getById_map reg _ hpres]
      have hnreg : n ∈ reg := by
        rw [htarget] at hn
        exact (List.mem_filter.mp hn).1
      have hlook : getById reg n.system_id = some n :=
        (getById_eq_some reg n.system_id n hnd).mpr ⟨hnreg, rfl⟩
      rw [hlook]
      have hcond : (decide (n.system_id ∈ system_ids.dedup)
          && user.canEdit n) = true := by
        rw [htarget] at hn
        exact (List.mem_filter.mp hn).2
      show some (if (decide (n.system_id ∈ system_ids.dedup)
          && user.canEdit n) = true then processRelease n else n)
        = some n.release_or_erase
      rw [if_pos hcond]
      unfold processRelease
      rw [if_neg h1, if_pos hrel]

/-- A registry with a releasable node a, an unreleasable node b and a
READY node r, for the bulk-release witness. -/
def bulkReg : List Node :=
  [ { exampleNode with system_id := "a", status := .ALLOCATED }
  , { exampleNode with system_id := "b", status := .NEW }
  , { exampleNode with system_id := "r", status := .READY } ]

/-- C4 (witness): on the concrete registry the call reports the failure
of b while returning the updated registry in which a was released. -/
theorem C4_witness :
    ((bulkReg.map Node.system_id).Nodup
      ∧ ∀ i ∈ ["a", "b", "r"], ∃ n, getById bulkReg i = some n
          ∧ exampleRequester.canEdit n = true)
    ∧ NodesHandler.releaseBulk bulkReg exampleRequester ["a", "b", "r"]
        = (release_registry bulkReg exampleRequester ["a", "b", "r"],
            .error (.releaseFailed
              (releaseLoop (target_nodes bulkReg exampleRequester
                ["a", "b", "r"])).2)) := by
  have hnd : (bulkReg.map Node.system_id).Nodup := by decide
  have hall : ∀ i ∈ ["a", "b", "r"], ∃ n, getById bulkReg i = some n
      ∧ exampleRequester.canEdit n = true := by
    intro i hi
    simp only [List.mem_cons, List.not_mem_nil, or_false] at hi
    rcases hi with rfl | rfl | rfl
    · exact ⟨_, rfl, rfl⟩
    · exact ⟨_, rfl, rfl⟩
    · exact ⟨_, rfl, rfl⟩
  refine ⟨⟨hnd, hall⟩, ?_⟩
  have h := (C4_bulk_release_independent bulkReg exampleRequester
    ["a", "b", "r"] hnd hall).1
  rw [h]
  rfl

/-- Modelled from the spec: `node.accept_enlistment(user)` (defined in
the host application's node model): a node already in an accepted state
(READY or COMMISSIONING) returns no change; any other non-NEW status is
a state violation (the source handler documents that accepting an
allocated or broken node is an error); a NEW node starts commissioning
and is returned. -/
def Node.accept_enlistment (n : Node) : Except String (Option Node) :=
  if n.status = .READY ∨ n.status = .COMMISSIONING then .ok none
  else if n.status ≠ .NEW then
    .error ("Cannot accept node enlistment: node " ++ n.system_id
      ++ " is in state " ++ n.display_status ++ ".")
  else .ok (some { n with status := .COMMISSIONING })

/-- The list comprehension of bulk accept in the source: the per-node
results in order, aborted by the first propagated state violation. -/
def acceptLoop : List Node → Except String (List (Option Node))
  | [] => .ok []
  | n :: rest =>
      match n.accept_enlistment with
      | .error e => .error e
      | .ok r =>
          match acceptLoop rest with
          | .error e => .error e
          | .ok rs => .ok (r :: rs)

/-- Bulk accept, `NodesHandler.accept` in the source: check all
identifiers exist, check the actor is admin on all of them, accept each
node's enlistment, and return only the nodes that actually changed
(`filter(None, ...)`). -/
def NodesHandler.acceptBulk (reg : List Node) (user : User)
    (system_ids : List String) : Except BulkError (List Node) :=
  let ids := system_ids.dedup
  let unknown := unknown_ids reg ids
  if unknown ≠ [] then .error (.unknownNodes unknown)
  else
    let nodes := get_nodes reg user.canAdmin ids
    if nodes.length < ids.length then
      .error (.permissionDenied (ids.filter (fun i =>
        !decide (i ∈ nodes.map Node.system_id))))
    else
      match acceptLoop nodes with
      | .error e => .error (.stateViolation e)
      | .ok rs => .ok (rs.filterMap id)

/-- C9 (counterexample): the claim calls accepting any node that is no
longer NEW a no-op success; but bulk-accepting an existing, permitted
node in status ALLOCATED fails with a propagated state violation rather
than succeeding. -/
theorem C9_counterexample :
    NodesHandler.acceptBulk
        [{ exampleNode with system_id := "a", status := .ALLOCATED }]
        exampleRequester ["a"]
      = .error (.stateViolation
          "Cannot accept node enlistment: node a is in state Allocated.") := by
  rfl

/-- When every target is NEW or already accepted, the loop returns the
per-node outcomes: no change for accepted nodes, the commissioning node
for NEW ones. -/
theorem acceptLoop_ok (nodes : List Node)
    (h : ∀ n ∈ nodes, n.status = .NEW ∨ n.status = .READY
      ∨ n.status = .COMMISSIONING) :
    acceptLoop nodes = .ok (nodes.map (fun n =>
      if n.status = .READY ∨ n.status = .COMMISSIONING then none
      else some { n with status := .COMMISSIONING })) := by
  induction nodes with
  | nil => rfl
  | cons hd t ih =>
      have hhd := h hd (List.mem_cons_self _ _)
      have hacc : hd.accept_enlistment
          = .ok (if hd.status = .READY ∨ hd.status = .COMMISSIONING then none
              else some { hd with status := .COMMISSIONING }) := by
        by_cases hc : hd.status = .READY ∨ hd.status = .COMMISSIONING
        · rw [Node.accept_enlistment, if_pos hc, if_pos hc]
        · have hnew : hd.status = .NEW := by tauto
          have hne : ¬ hd.status ≠ .NEW := by
            intro hx
            exact hx hnew
          rw [Node.accept_enlistment, if_neg hc, if_neg hne, if_neg hc]
      simp [acceptLoop, hacc, ih (fun n hn => h n (List.mem_cons_of_mem _ hn))]

/-- Dropping the no-change results keeps exactly the commissioned NEW
nodes, in order. -/
theorem filterMap_accept (nodes : List Node) :
    (nodes.map (fun n =>
        if n.status = .READY ∨ n.status = .COMMISSIONING then none
        else some { n with status := NodeStatus.COMMISSIONING })).filterMap id
      = (nodes.filter (fun n =>
          !decide (n.status = .READY ∨ n.status = .COMMISSIONING))).map
          (fun n => { n with status := NodeStatus.COMMISSIONING }) := by
  induction nodes with
  | nil => rfl
  | cons h t ih =>
      by_cases hc : h.status = .READY ∨ h.status = .COMMISSIONING
      · simp [List.filterMap_cons, List.filter_cons, hc, ih]
        rw [if_neg (by tauto)]
      · simp [List.filterMap_cons, List.filter_cons, hc, ih]
        rw [if_pos (by tauto), List.map_cons]

/-- C9 (amended): over existing, admin-permitted identifiers whose nodes
are each NEW or already accepted (READY or COMMISSIONING — not merely
any non-NEW status, see the counterexample), accepting an
already-accepted node is a no-op success returning no change, and the
call returns exactly the nodes whose status actually changed (the NEW
ones, now COMMISSIONING), excluding the already-accepted ones. -/
theorem C9_bulk_accept_noop (reg : List Node) (user : User)
    (system_ids : List String) (hnd : (reg.map Node.system_id).Nodup)
    (hall : ∀ i ∈ system_ids, ∃ n, getById reg i = some n
      ∧ user.canAdmin n = true)
    (hstat : ∀ n ∈ get_nodes reg user.canAdmin system_ids.dedup,
      n.status = .NEW ∨ n.status = .READY ∨ n.status = .COMMISSIONING) :
    (∀ n ∈ get_nodes reg user.canAdmin system_ids.dedup,
        (n.status = .READY ∨ n.status = .COMMISSIONING) →
        n.accept_enlistment = .ok none)
    ∧ NodesHandler.acceptBulk reg user system_ids
        = .ok (((get_nodes reg user.canAdmin system_ids.dedup).filter
            (fun n => decide (n.status = .NEW))).map
            (fun n => { n with status := .COMMISSIONING })) := by
  have hall' : ∀ i ∈ system_ids.dedup, ∃ n, getById reg i = some n
      ∧ user.canAdmin n = true := fun i hi => hall i (List.mem_dedup.mp hi)
  have hempty : unknown_ids reg system_ids.dedup = [] := by
    rw [unknown_ids, List.filter_eq_nil_iff]
    intro j hj
    rcases hall' j hj with ⟨n, hn, _⟩
    rw [hn]
    exact fun hc => Bool.false_ne_true hc
  have hge : system_ids.dedup.length
      ≤ (get_nodes reg user.canAdmin system_ids.dedup).length :=
    get_nodes_length_ge reg user.canAdmin system_ids.dedup hnd
      (List.nodup_dedup system_ids) hall'
  constructor
  · intro n _ hacc
    rw [Node.accept_enlistment, if_pos hacc]
  · have hfilter : (get_nodes reg user.canAdmin system_ids.dedup).filter
        (fun n => !decide (n.status = .READY ∨ n.status = .COMMISSIONING))
        = (get_nodes reg user.canAdmin system_ids.dedup).filter
          (fun n => decide (n.status = .NEW)) := by
      apply List.filter_congr
      intro n hn
      rcases hstat n hn with h1 | h1 | h1 <;> rw [h1] <;> rfl
    simp only [NodesHandler.acceptBulk]
    rw [if_neg (by simp [hempty]), if_neg (by omega)]
    rw [acceptLoop_ok _ hstat]
    simp only []
    rw [filterMap_accept, hfilter]

/-- A registry with a NEW node a and an already accepted READY node b,
for the bulk-accept witness. -/
def acceptReg : List Node :=
  [ { exampleNode with system_id := "a", status := .NEW }
  , { exampleNode with system_id := "b", status := .READY } ]

/-- C9 (witness): accepting a and b together re-accepts b as a no-op and
returns exactly the changed node a, now COMMISSIONING. -/
theorem C9_witness :
    ((acceptReg.map Node.system_id).Nodup
      ∧ (∀ i ∈ ["a", "b"], ∃ n, getById acceptReg i = some n
          ∧ exampleRequester.canAdmin n = true)
      ∧ (∀ n ∈ get_nodes acceptReg exampleRequester.canAdmin
          (["a", "b"] : List String).dedup,
          n.status = .NEW ∨ n.status = .READY ∨ n.status = .COMMISSIONING))
    ∧ NodesHandler.acceptBulk acceptReg exampleRequester ["a", "b"]
        = .ok [{ exampleNode with system_id := "a", status := .COMMISSIONING }] := by
  have hnd : (acceptReg.map Node.system_id).Nodup := by decide
  have hall : ∀ i ∈ ["a", "b"], ∃ n, getById acceptReg i = some n
      ∧ exampleRequester.canAdmin n = true := by
    intro i hi
    simp only [List.mem_cons, List.not_mem_nil, or_false] at hi
    rcases hi with rfl | rfl
    · exact ⟨_, rfl, rfl⟩
    · exact ⟨_, rfl, rfl⟩
  have hstat : ∀ n ∈ get_nodes acceptReg exampleRequester.canAdmin
      (["a", "b"] : List String).dedup,
      n.status = .NEW ∨ n.status = .READY ∨ n.status = .COMMISSIONING := by
    intro n hn
    have : n ∈ acceptReg := (List.mem_filter.mp hn).1
    simp only [acceptReg, List.mem_cons, List.not_mem_nil, or_false] at this
    rcases this with rfl | rfl
    · exact Or.inl rfl
    · exact Or.inr (Or.inl rfl)
  refine ⟨⟨hnd, hall, hstat⟩, ?_⟩
  have h := (C9_bulk_accept_noop acceptReg exampleRequester ["a", "b"]
    hnd hall hstat).2
  rw [h]
  rfl
